import Mathlib

/-!
Verification of the audio feature-extraction pipeline in
`pre_process_1.py` and `pre_process_2.py`.

The numeric code operates on IEEE floating-point arrays; the embedding
models every scalar as a `FloatV` — a finite real number or one of the
non-finite values (`inf`, `ninf`, `nan`) — so that the source's
explicit `np.isfinite` / `np.isnan` / `np.isinf` checks are meaningful.
External library calls (`librosa.lpc`, `np.roots`, `librosa.cqt`,
`librosa.feature.mfcc`, `librosa.load`) are taken as function
parameters; the repository's own logic (polynomial preparation,
finiteness guards, stability filtering, angle extraction and sorting,
pre-emphasis, CQCC normalization, period filtering, the per-clip batch
loops) is translated line by line.
-/

namespace PreProc

/-- Model of one floating-point scalar: a finite real value or one of the
non-finite IEEE values (positive infinity, negative infinity, NaN). -/
inductive FloatV where
  | fin (x : ℝ)
  | inf
  | ninf
  | nan

instance : Inhabited FloatV := ⟨FloatV.nan⟩

/-- Model of `np.isfinite` on a scalar: true exactly on finite values,
so `not isFinite` models `np.isinf(v) or np.isnan(v)`. -/
def FloatV.isFinite : FloatV → Bool
  | FloatV.fin _ => true
  | _ => false

/-- Real value carried by a finite float; junk value 0 on non-finite values.
Every use is guarded by a preceding finiteness check. -/
def FloatV.toReal : FloatV → ℝ
  | FloatV.fin x => x
  | _ => 0

/-- Model of floating-point negation. -/
def FloatV.neg : FloatV → FloatV
  | FloatV.fin x => FloatV.fin (-x)
  | FloatV.inf => FloatV.ninf
  | FloatV.ninf => FloatV.inf
  | FloatV.nan => FloatV.nan

/-- Model of floating-point subtraction: exact on finite values, NaN
propagates, same-signed infinities cancel to NaN. -/
def FloatV.sub : FloatV → FloatV → FloatV
  | FloatV.nan, _ => FloatV.nan
  | _, FloatV.nan => FloatV.nan
  | FloatV.fin a, FloatV.fin b => FloatV.fin (a - b)
  | FloatV.inf, FloatV.inf => FloatV.nan
  | FloatV.inf, _ => FloatV.inf
  | FloatV.ninf, FloatV.ninf => FloatV.nan
  | FloatV.ninf, _ => FloatV.ninf
  | FloatV.fin _, FloatV.inf => FloatV.ninf
  | FloatV.fin _, FloatV.ninf => FloatV.inf

/-- Model of floating-point multiplication: exact on finite values, NaN
propagates, infinity times zero is NaN, otherwise infinities keep the
sign rule. -/
noncomputable def FloatV.mul : FloatV → FloatV → FloatV
  | FloatV.nan, _ => FloatV.nan
  | _, FloatV.nan => FloatV.nan
  | FloatV.fin a, FloatV.fin b => FloatV.fin (a * b)
  | FloatV.inf, FloatV.inf => FloatV.inf
  | FloatV.inf, FloatV.ninf => FloatV.ninf
  | FloatV.ninf, FloatV.inf => FloatV.ninf
  | FloatV.ninf, FloatV.ninf => FloatV.inf
  | FloatV.fin a, FloatV.inf =>
      if a = 0 then FloatV.nan else if 0 < a then FloatV.inf else FloatV.ninf
  | FloatV.fin a, FloatV.ninf =>
      if a = 0 then FloatV.nan else if 0 < a then FloatV.ninf else FloatV.inf
  | FloatV.inf, FloatV.fin b =>
      if b = 0 then FloatV.nan else if 0 < b then FloatV.inf else FloatV.ninf
  | FloatV.ninf, FloatV.fin b =>
      if b = 0 then FloatV.nan else if 0 < b then FloatV.ninf else FloatV.inf

/-- Model of the floating-point reciprocal `1 / v` (numpy semantics):
the reciprocal of zero is infinity, of an infinity is zero, NaN
propagates. -/
noncomputable def FloatV.recip : FloatV → FloatV
  | FloatV.fin x => if x = 0 then FloatV.inf else FloatV.fin x⁻¹
  | FloatV.inf => FloatV.fin 0
  | FloatV.ninf => FloatV.fin 0
  | FloatV.nan => FloatV.nan

/-- Model of the elementwise comparison `v > 0`: false on NaN, true on
positive infinity. -/
noncomputable def FloatV.isPos : FloatV → Bool
  | FloatV.fin x => decide (0 < x)
  | FloatV.inf => true
  | FloatV.ninf => false
  | FloatV.nan => false

/-- Bool test that a value is both finite and strictly positive. -/
noncomputable def FloatV.finitePos : FloatV → Bool
  | FloatV.fin x => decide (0 < x)
  | _ => false

/-- Model of one complex floating-point scalar, as returned by
`np.roots`: a pair of real floating-point components. -/
structure NpComplex where
  re : FloatV
  im : FloatV

/-- Model of `np.isfinite` on a complex scalar: both components finite. -/
def NpComplex.isFinite (z : NpComplex) : Bool :=
  z.re.isFinite && z.im.isFinite

/-- Mathematical complex number carried by a finite complex float (junk
components 0 on non-finite parts; every use is guarded by a finiteness
check). -/
noncomputable def NpComplex.toComplex (z : NpComplex) : ℂ :=
  (z.re.toReal : ℂ) + z.im.toReal * Complex.I

/-- Model of `pre_emphasis` (pre_process_2.py lines 6-8):
`np.append(audio_data[0], audio_data[1:] - coeff * audio_data[:-1])`.
On the empty waveform the subscript `audio_data[0]` raises IndexError,
modelled as `none`. -/
noncomputable def pre_emphasis (coeff : FloatV) (audio : List FloatV) :
    Option (List FloatV) :=
  match audio with
  | [] => none
  | x0 :: rest =>
      some (x0 :: List.zipWith (fun a b => FloatV.sub a (FloatV.mul coeff b)) rest audio)

/-- Model of the fundamental-period stage of `extract_audio_features`
(pre_process_1.py lines 26-29): take the reciprocal of each per-frame
fundamental frequency, keep only finite values, then keep only strictly
positive values. The input list has one entry per analysis frame. -/
noncomputable def fundamental_period (freqs : List FloatV) : List FloatV :=
  ((freqs.map FloatV.recip).filter FloatV.isFinite).filter FloatV.isPos

/-- Model of `np.min` over a non-empty array (value on the empty list is
an arbitrary 0; numpy raises there). -/
noncomputable def npMin : List ℝ → ℝ
  | [] => 0
  | x :: xs => xs.foldl min x

/-- Model of `np.max` over a non-empty array (value on the empty list is
an arbitrary 0; numpy raises there). -/
noncomputable def npMax : List ℝ → ℝ
  | [] => 0
  | x :: xs => xs.foldl max x

/-- Model of the CQCC normalization stage (pre_process_2.py lines 54-55):
`cqcc -= np.min(cqcc)` followed by `cqcc /= np.max(cqcc)`, the maximum
being taken after the subtraction. The 2-D array is modelled flattened,
as the operations are elementwise and the min/max range over all
entries. -/
noncomputable def cqcc_normalize (l : List ℝ) : List ℝ :=
  let shifted := l.map (fun x => x - npMin l)
  shifted.map (fun x => x / npMax shifted)

/-- Model of the polynomial preparation of `compute_lsf`
(pre_process_2.py lines 12-13): `lpc_coeffs = librosa.lpc(audio_data,
order=12)` followed by `p = np.append(1, -lpc_coeffs)`. The external
fit `librosa.lpc` is a parameter; note the hard-coded order 12. -/
def lsfPoly (lpcFit : List FloatV → ℕ → List FloatV) (audio : List FloatV) :
    List FloatV :=
  FloatV.fin 1 :: (lpcFit audio 12).map FloatV.neg

/-- Model of `compute_lsf` (pre_process_2.py lines 10-29). The external
calls `librosa.lpc` and `np.roots` are the parameters `lpcFit` and
`rootsOf`; `sampleRate` and `order` are the (unused) parameters of the
Python function, `order` defaulting to 10 at the call site. The
trailing `[:, np.newaxis]` reshape does not change the value sequence
and is dropped. -/
noncomputable def compute_lsf (lpcFit : List FloatV → ℕ → List FloatV)
    (rootsOf : List FloatV → List NpComplex)
    (audio : List FloatV) (sampleRate : ℕ) (order : ℕ) : List ℝ :=
  let p := lsfPoly lpcFit audio
  if p.any (fun v => !v.isFinite) then []
  else
    let roots := rootsOf p
    if roots.any (fun z => !z.isFinite) then []
    else
      let stable := roots.filter (fun z => decide (Complex.abs z.toComplex < 1))
      if stable.isEmpty then []
      else List.insertionSort (· ≤ ·) (stable.map (fun z => Complex.arg z.toComplex))

/-- Model of `compute_mfcc` (pre_process_2.py lines 31-34): a direct
call to `librosa.feature.mfcc(y=..., sr=..., n_mfcc=...)`, which is the
parameter `mfccY`. -/
def compute_mfcc (mfccY : List FloatV → ℕ → ℕ → List ℝ)
    (audio : List FloatV) (sampleRate : ℕ) (nMfcc : ℕ) : List ℝ :=
  mfccY audio sampleRate nMfcc

/-- Model of `compute_lpc` (pre_process_2.py lines 36-39):
`librosa.lpc(audio_data, order=12)`; the `[:, np.newaxis]` reshape does
not change the value sequence and is dropped. -/
def compute_lpc (lpcFit : List FloatV → ℕ → List FloatV)
    (audio : List FloatV) : List FloatV :=
  lpcFit audio 12

/-- Model of `compute_cqcc` (pre_process_2.py lines 41-57): constant-Q
magnitudes (external, parameter `cqtMag`, flattened), elementwise
`log(magnitude + 1e-6)`, cepstral coefficients via
`librosa.feature.mfcc(S=..., n_mfcc=...)` (external, parameter
`mfccS`), then the min/max normalization. -/
noncomputable def compute_cqcc (cqtMag : List FloatV → ℕ → ℕ → ℕ → List ℝ)
    (mfccS : List ℝ → ℕ → List ℝ)
    (audio : List FloatV) (sampleRate nBands nCoeffs hopLength : ℕ) : List ℝ :=
  let magnitude := cqtMag audio sampleRate nBands hopLength
  let logMagnitude := magnitude.map (fun m => Real.log (m + 1e-6))
  let cqcc := mfccS logMagnitude nCoeffs
  cqcc_normalize cqcc

/-- The per-clip feature bundle assembled by `process_audio`
(pre_process_2.py line 76). -/
structure FeatureBundle where
  lsf : List ℝ
  mfcc : List ℝ
  lpc : List FloatV
  cqcc : List ℝ

/-- Model of `process_audio` (pre_process_2.py lines 59-76), taking the
already-loaded waveform. Result `none` models an exception escaping the
function (the IndexError of `pre_emphasis` on an empty waveform);
`some none` models the detected-failure paths that return Python
`None`; `some (some b)` models a successful bundle. -/
noncomputable def process_audio (lpcFit : List FloatV → ℕ → List FloatV)
    (rootsOf : List FloatV → List NpComplex)
    (mfccY : List FloatV → ℕ → ℕ → List ℝ)
    (cqtMag : List FloatV → ℕ → ℕ → ℕ → List ℝ)
    (mfccS : List ℝ → ℕ → List ℝ)
    (audio : List FloatV) (sampleRate : ℕ) : Option (Option FeatureBundle) :=
  match pre_emphasis (FloatV.fin (1/2)) audio with
  | none => none
  | some pre =>
      if pre.any (fun v => !v.isFinite) then some none
      else
        let lsfResult := compute_lsf lpcFit rootsOf pre sampleRate 10
        if lsfResult.isEmpty then some none
        else
          some (some ⟨lsfResult,
                      compute_mfcc mfccY pre sampleRate 1,
                      compute_lpc lpcFit pre,
                      compute_cqcc cqtMag mfccS audio sampleRate 6 6 2048⟩)

/-- Model of the batch loop of `process_audio_directory`
(pre_process_1.py lines 80-94): for each `.wav` file, the whole body
(load, extract, save) runs inside try/except, so a load failure yields
a logged skip (`none`) and the loop always continues. `extract` stands
for the per-clip work done on a successfully loaded clip. -/
def process_audio_directory {ι ε α β : Type} (isWav : ι → Bool)
    (load : ι → Except ε α) (extract : α → β)
    (files : List ι) : List (ι × Option β) :=
  (files.filter isWav).map (fun f =>
    (f, match load f with
        | Except.error _ => none
        | Except.ok a => some (extract a)))

/-- Model of the batch loop of `turn` (pre_process_2.py lines 95-112):
for each `.wav` file, `process_audio` is called with no surrounding
try/except. A load failure (exception from `librosa.load`, error
`Sum.inl e`) or an escaping IndexError (error `Sum.inr ()`) aborts the
whole loop; a detected failure (`results is None`) is skipped; a
success is recorded. The returned list holds the clips whose
spectrograms were saved, in order. -/
noncomputable def turn {ι ε : Type} (isWav : ι → Bool)
    (load : ι → Except ε (List FloatV × ℕ))
    (lpcFit : List FloatV → ℕ → List FloatV)
    (rootsOf : List FloatV → List NpComplex)
    (mfccY : List FloatV → ℕ → ℕ → List ℝ)
    (cqtMag : List FloatV → ℕ → ℕ → ℕ → List ℝ)
    (mfccS : List ℝ → ℕ → List ℝ) : List ι → Except (ε ⊕ Unit) (List ι)
  | [] => Except.ok []
  | f :: rest =>
      if isWav f then
        match load f with
        | Except.error e => Except.error (Sum.inl e)
        | Except.ok (audio, sr) =>
            match process_audio lpcFit rootsOf mfccY cqtMag mfccS audio sr with
            | none => Except.error (Sum.inr ())
            | some none => turn isWav load lpcFit rootsOf mfccY cqtMag mfccS rest
            | some (some _) =>
                Except.map (fun l => f :: l)
                  (turn isWav load lpcFit rootsOf mfccY cqtMag mfccS rest)
      else turn isWav load lpcFit rootsOf mfccY cqtMag mfccS rest

/-- The polynomial described by the spec sentence for step 1 of the LSF
derivation: the coefficient list of `1 - sum a_k z^(-k)` viewed as a
degree-`len a` polynomial, namely a leading 1 followed by the negated
fitted coefficients `a_1 .. a_n`. Stated from the spec's words for
comparison with `lsfPoly`, which is taken from the source. -/
def specErrorPoly (a : List ℝ) : List ℝ :=
  1 :: a.map (fun x => -x)

/-! Concrete instantiations of the external collaborators, used to
evaluate the pipeline on concrete inputs. -/

/-- An LPC fit that returns the single coefficient 0 for every signal
and order. -/
def lpcFit0 : List FloatV → ℕ → List FloatV := fun _ _ => [FloatV.fin 0]

/-- A root finder that returns the single root 0. -/
def rootsOf0 : List FloatV → List NpComplex := fun _ => [⟨FloatV.fin 0, FloatV.fin 0⟩]

/-- A root finder that returns the single root -1/2, a stable root on
the negative real axis. -/
noncomputable def rootsOfNeg : List FloatV → List NpComplex :=
  fun _ => [⟨FloatV.fin (-(1/2)), FloatV.fin 0⟩]

/-- An LPC fit that returns a NaN coefficient when invoked with order
10 and the single coefficient 0 for any other order. -/
def lpcFitOrd : List FloatV → ℕ → List FloatV :=
  fun _ o => if o = 10 then [FloatV.nan] else [FloatV.fin 0]

/-- A length-13 LPC coefficient vector of the shape `librosa.lpc`
returns for order 12: a leading 1 followed by 12 fitted coefficients
(here all 0). -/
def ell0 : List FloatV := FloatV.fin 1 :: List.replicate 12 (FloatV.fin 0)

/-- An MFCC-from-signal extractor returning the single coefficient 0. -/
def mfccY0 : List FloatV → ℕ → ℕ → List ℝ := fun _ _ _ => [0]

/-- A constant-Q magnitude extractor whose middle output depends on the
second sample of its input signal, so that distinct signals yield
distinct CQCC arrays. -/
noncomputable def cqtMag0 : List FloatV → ℕ → ℕ → ℕ → List ℝ :=
  fun y _ _ _ =>
    [1 - 1e-6, Real.exp (FloatV.toReal (y.getD 1 FloatV.nan)) - 1e-6, Real.exp 1 - 1e-6]

/-- An MFCC-from-spectrogram extractor that passes the log-spectrogram
through unchanged. -/
def mfccS0 : List ℝ → ℕ → List ℝ := fun s _ => s

/-! Helper lemmas. -/

theorem getElem?_zipWith_some {α β γ : Type} (f : α → β → γ) :
    ∀ (l1 : List α) (l2 : List β) (i : ℕ) (a : α) (b : β),
      l1[i]? = some a → l2[i]? = some b →
      (List.zipWith f l1 l2)[i]? = some (f a b) := by
  intro l1
  induction l1 with
  | nil => intro l2 i a b h1 _; simp at h1
  | cons x xs ih =>
    intro l2 i a b h1 h2
    cases l2 with
    | nil => simp at h2
    | cons y ys =>
      cases i with
      | zero =>
        simp only [List.getElem?_cons_zero, Option.some.injEq] at h1 h2
        simp [h1, h2]
      | succ j =>
        simp only [List.getElem?_cons_succ] at h1 h2
        rw [List.zipWith_cons_cons, List.getElem?_cons_succ]
        exact ih ys j a b h1 h2

theorem insertionSort_ne_nil {l : List ℝ} (h : l ≠ []) :
    List.insertionSort (· ≤ ·) l ≠ [] := by
  intro hs
  apply h
  have := (List.perm_insertionSort (· ≤ ·) l).length_eq
  rw [hs] at this
  exact List.length_eq_zero.mp this.symm

/-! C6: pre-emphasis shape and recurrence. -/

/-- C6 counterexample: on the empty input waveform, `pre_emphasis` does
not return an output at all (the subscript `audio_data[0]` raises
IndexError), so the claim quantified over every input waveform fails at
the empty waveform. -/
theorem pre_emphasis_empty_cex :
    pre_emphasis (FloatV.fin (1/2)) [] = none := rfl

/-- C6 (amended): for every non-empty input waveform, `pre_emphasis`
with the default coefficient 1/2 returns an output of the same length
whose first element is the input's first element and whose later
elements satisfy `y[i] = x[i] - c * x[i-1]` in floating-point
arithmetic, hence exactly `x[i] - 1/2 * x[i-1]` on finite samples. -/
theorem pre_emphasis_spec (x : List FloatV) (hx : x ≠ []) :
    (pre_emphasis (FloatV.fin (1/2)) x).isSome = true ∧
    ∀ y, pre_emphasis (FloatV.fin (1/2)) x = some y →
      y.length = x.length ∧ y.head? = x.head? ∧
      (∀ i : ℕ, 1 ≤ i → i < x.length →
        y[i]? = some (FloatV.sub ((x[i]?).getD FloatV.nan)
          (FloatV.mul (FloatV.fin (1/2)) ((x[i-1]?).getD FloatV.nan)))) ∧
      (∀ (i : ℕ) (a b : ℝ), 1 ≤ i → x[i]? = some (FloatV.fin a) →
        x[i-1]? = some (FloatV.fin b) →
        y[i]? = some (FloatV.fin (a - 1/2 * b))) := by
  cases x with
  | nil => exact absurd rfl hx
  | cons x0 rest =>
    refine ⟨rfl, ?_⟩
    intro y hy
    simp only [pre_emphasis, Option.some.injEq] at hy
    subst hy
    refine ⟨?_, rfl, ?_, ?_⟩
    · simp only [List.length_cons, List.length_zipWith, List.length_cons]
      omega
    · intro i h1 h2
      obtain ⟨j, rfl⟩ : ∃ j, i = j + 1 := ⟨i - 1, by omega⟩
      have hj : j < rest.length := by
        simpa using h2
      have hx1 : ((x0 :: rest) : List FloatV)[j + 1]? = some rest[j] := by
        simp [List.getElem?_eq_getElem, hj]
      have hx0 : ((x0 :: rest) : List FloatV)[j + 1 - 1]? = some ((x0 :: rest) : List FloatV)[j] := by
        simpa using List.getElem?_eq_getElem (by simpa using Nat.lt_succ_of_lt hj)
      rw [hx1, hx0]
      simp only [List.getElem?_cons_succ]
      have := getElem?_zipWith_some
        (fun a b => FloatV.sub a (FloatV.mul (FloatV.fin (1/2)) b))
        rest (x0 :: rest) j rest[j] ((x0 :: rest) : List FloatV)[j]
        (by simp [List.getElem?_eq_getElem, hj])
        (by exact List.getElem?_eq_getElem (by simpa using Nat.lt_succ_of_lt hj))
      simpa using this
    · intro i a b h1 ha hb
      obtain ⟨j, rfl⟩ : ∃ j, i = j + 1 := ⟨i - 1, by omega⟩
      simp only [List.getElem?_cons_succ] at ha
      have hb2 : ((x0 :: rest) : List FloatV)[j]? = some (FloatV.fin b) := by
        simpa using hb
      simp only [List.getElem?_cons_succ]
      have := getElem?_zipWith_some
        (fun a b => FloatV.sub a (FloatV.mul (FloatV.fin (1/2)) b))
        rest (x0 :: rest) j (FloatV.fin a) (FloatV.fin b) ha hb2
      rw [this]
      simp [FloatV.sub, FloatV.mul]

/-- C6 witness: the amended theorem applied to the concrete waveform
`[1, 2]`. -/
theorem pre_emphasis_spec_witness :
    (pre_emphasis (FloatV.fin (1/2)) [FloatV.fin 1, FloatV.fin 2]).isSome = true :=
  (pre_emphasis_spec [FloatV.fin 1, FloatV.fin 2] (by simp)).1

/-! C8: fundamental-period values and length. -/

/-- C8: every entry of the fundamental-period sequence is a finite,
strictly positive value, and the sequence is no longer than the
per-frame fundamental-frequency sequence it filters (one entry per
analysis frame): invalid entries are dropped, not replaced. -/
theorem fundamental_period_finite_pos (freqs : List FloatV) :
    (fundamental_period freqs).all FloatV.finitePos = true ∧
    (fundamental_period freqs).length ≤ freqs.length := by
  constructor
  · rw [List.all_eq_true]
    intro v hv
    have h2 := List.of_mem_filter hv
    have h1 := List.of_mem_filter (List.mem_of_mem_filter hv)
    cases v with
    | fin x => simpa [FloatV.finitePos, FloatV.isPos] using h2
    | inf => simp [FloatV.isFinite] at h1
    | ninf => simp [FloatV.isPos] at h2
    | nan => simp [FloatV.isPos] at h2
  · calc (fundamental_period freqs).length
        ≤ ((freqs.map FloatV.recip).filter FloatV.isFinite).length :=
          List.length_filter_le _ _
      _ ≤ (freqs.map FloatV.recip).length := List.length_filter_le _ _
      _ = freqs.length := List.length_map _ _

/-! C3: the polynomial handed to the root finder. -/

/-- C3 counterexample: with the order-12 `librosa.lpc` output for which
every fitted coefficient is 0 (the coefficient vector `[1, 0, ..., 0]`
of length 13), the polynomial the code builds has 14 coefficients
(degree 13), not the 13 coefficients (degree 12) of the claimed
polynomial `1 - sum a_k z^(-k)`. -/
theorem lsfPoly_degree_cex :
    (lsfPoly (fun _ _ => ell0) []).length = 14 ∧
    ((specErrorPoly (List.replicate 12 0)).map FloatV.fin).length = 13 ∧
    lsfPoly (fun _ _ => ell0) [] ≠ (specErrorPoly (List.replicate 12 0)).map FloatV.fin := by
  refine ⟨by simp [lsfPoly, ell0], by simp [specErrorPoly], ?_⟩
  intro h
  have := congrArg List.length h
  simp [lsfPoly, ell0, specErrorPoly] at this

/-- C3 (amended): the polynomial whose roots are computed is a leading
1 prepended to the elementwise negation of the `librosa.lpc` output
`[1, a_1, ..., a_n]`, i.e. `[1, -1, -a_1, ..., -a_n]`; for the order-12
fit it has 14 coefficients, hence degree 13, with second coefficient
-1 — not the degree-12 polynomial `1 - sum a_k z^(-k)`. -/
theorem lsfPoly_structure (lpcFit : List FloatV → ℕ → List FloatV)
    (audio : List FloatV) (a : List FloatV)
    (h : lpcFit audio 12 = FloatV.fin 1 :: a) :
    lsfPoly lpcFit audio = FloatV.fin 1 :: FloatV.fin (-1) :: a.map FloatV.neg ∧
    (lsfPoly lpcFit audio).length = a.length + 2 := by
  constructor
  · simp [lsfPoly, h, FloatV.neg]
  · simp [lsfPoly, h]

/-- C3 witness: the amended theorem applied to the all-zero order-12
coefficient vector. -/
theorem lsfPoly_structure_witness :
    lsfPoly (fun _ _ => ell0) [] =
      FloatV.fin 1 :: FloatV.fin (-1) :: (List.replicate 12 (FloatV.fin 0)).map FloatV.neg ∧
    (lsfPoly (fun _ _ => ell0) []).length = 12 + 2 := by
  have h := lsfPoly_structure (fun _ _ => ell0) [] (List.replicate 12 (FloatV.fin 0)) rfl
  simpa using h

/-! Evaluation of `compute_lsf` on the concrete collaborators. -/

theorem compute_lsf_eval_single (audio : List FloatV) (sr o : ℕ) (a b : ℝ)
    (habs : Complex.abs (NpComplex.toComplex ⟨FloatV.fin a, FloatV.fin b⟩) < 1) :
    compute_lsf lpcFit0 (fun _ => [⟨FloatV.fin a, FloatV.fin b⟩]) audio sr o =
      [Complex.arg (NpComplex.toComplex ⟨FloatV.fin a, FloatV.fin b⟩)] := by
  simp [compute_lsf, lsfPoly, lpcFit0, FloatV.neg, FloatV.isFinite, NpComplex.isFinite,
    List.filter_cons, habs]

theorem compute_lsf_eval0 (audio : List FloatV) (sr o : ℕ) :
    compute_lsf lpcFit0 rootsOf0 audio sr o = [0] := by
  have habs : Complex.abs (NpComplex.toComplex ⟨FloatV.fin 0, FloatV.fin 0⟩) < 1 := by
    simp [NpComplex.toComplex, FloatV.toReal]
  have harg : Complex.arg (NpComplex.toComplex ⟨FloatV.fin 0, FloatV.fin 0⟩) = 0 := by
    simp [NpComplex.toComplex, FloatV.toReal, Complex.arg_zero]
  simp [compute_lsf, lsfPoly, lpcFit0, rootsOf0, FloatV.neg, FloatV.isFinite,
    NpComplex.isFinite, List.filter_cons, habs, harg]

/-! C4: the order parameter of `compute_lsf`. -/

/-- C4 counterexample: with an LPC fitter that returns a NaN
coefficient exactly when asked for an order-10 fit, `compute_lsf`
called with its default order 10 still returns a non-empty result —
so the order-10 fit was never performed (an order-10 fit would have
tripped the degenerate-model check and produced the empty result);
the code hard-codes order 12. -/
theorem compute_lsf_order_cex :
    compute_lsf lpcFitOrd rootsOf0 [] 16000 10 = [0] ∧
    (lpcFitOrd [] 10).any (fun v => !v.isFinite) = true := by
  constructor
  · have habs : Complex.abs (NpComplex.toComplex ⟨FloatV.fin 0, FloatV.fin 0⟩) < 1 := by
      simp [NpComplex.toComplex, FloatV.toReal]
    have harg : Complex.arg (NpComplex.toComplex ⟨FloatV.fin 0, FloatV.fin 0⟩) = 0 := by
      simp [NpComplex.toComplex, FloatV.toReal, Complex.arg_zero]
    simp [compute_lsf, lsfPoly, lpcFitOrd, rootsOf0, FloatV.neg, FloatV.isFinite,
      NpComplex.isFinite, List.filter_cons, habs, harg]
  · rfl

/-- C4 (amended): `compute_lsf` ignores both its `order` parameter
(default 10) and its `sample_rate` parameter; its result depends on the
LPC fitter only through the order-12 fit of the input signal, so the
autoregressive model fitted is always of order 12. -/
theorem compute_lsf_order_irrelevant (lpcFit lpcFit2 : List FloatV → ℕ → List FloatV)
    (rootsOf : List FloatV → List NpComplex) (audio : List FloatV)
    (sr sr2 o o2 : ℕ) (h : lpcFit audio 12 = lpcFit2 audio 12) :
    compute_lsf lpcFit rootsOf audio sr o = compute_lsf lpcFit2 rootsOf audio sr2 o2 := by
  simp only [compute_lsf, lsfPoly, h]

/-- C4 witness: the amended theorem applied at order arguments 10 and
12 on a concrete fitter. -/
theorem compute_lsf_order_irrelevant_witness :
    compute_lsf lpcFit0 rootsOf0 [] 0 10 = compute_lsf lpcFit0 rootsOf0 [] 16000 12 :=
  compute_lsf_order_irrelevant lpcFit0 lpcFit0 rootsOf0 [] 0 16000 10 12 rfl

/-! C10: the LSF result holds at most 13 values. -/

/-- C10: when the LPC fit returns its 13 order-12 coefficients and the
root finder returns at most `degree = len p - 1` roots, the polynomial
handed to the root finder has 14 coefficients (degree 13) and the LSF
result contains at most 13 values: the stability filter, angle map and
sort never grow the root list. -/
theorem compute_lsf_length_le (lpcFit : List FloatV → ℕ → List FloatV)
    (rootsOf : List FloatV → List NpComplex) (audio : List FloatV) (sr o : ℕ)
    (hlpc : (lpcFit audio 12).length = 13)
    (hroots : (rootsOf (lsfPoly lpcFit audio)).length ≤ (lsfPoly lpcFit audio).length - 1) :
    (lsfPoly lpcFit audio).length = 14 ∧
    (compute_lsf lpcFit rootsOf audio sr o).length ≤ 13 := by
  have hp : (lsfPoly lpcFit audio).length = 14 := by
    simp [lsfPoly, hlpc]
  refine ⟨hp, ?_⟩
  rw [hp] at hroots
  simp only [compute_lsf]
  split
  · simp
  · split
    · simp
    · split
      · simp
      · rw [(List.perm_insertionSort (· ≤ ·) _).length_eq, List.length_map]
        calc ((rootsOf (lsfPoly lpcFit audio)).filter
              (fun z => decide (Complex.abs z.toComplex < 1))).length
            ≤ (rootsOf (lsfPoly lpcFit audio)).length := List.length_filter_le _ _
          _ ≤ 13 := hroots

/-- C10 witness: the theorem applied to a fitter returning 13 zero
coefficients and a root finder returning no roots. -/
theorem compute_lsf_length_le_witness :
    (lsfPoly (fun _ _ => ell0) []).length = 14 ∧
    (compute_lsf (fun _ _ => ell0) (fun _ => []) [] 0 10).length ≤ 13 :=
  compute_lsf_length_le (fun _ _ => ell0) (fun _ => []) [] 0 10
    (by simp [ell0]) (by simp)

/-! C1: the failure taxonomy of `compute_lsf`. -/

/-- C1: `compute_lsf` returns the empty result exactly when one of its
three failure conditions holds — a non-finite polynomial coefficient
(DEGENERATE_MODEL), a non-finite root (DEGENERATE_ROOTS), or no root of
modulus strictly below 1 (NO_STABLE_ROOTS) — and otherwise returns the
non-empty sorted sequence of angles of the surviving roots. The checks
fire in order: when the polynomial is degenerate the result does not
depend on the root finder at all, and the root-finiteness check guards
the stability filter. -/
theorem compute_lsf_failure_taxonomy (lpcFit : List FloatV → ℕ → List FloatV)
    (rootsOf : List FloatV → List NpComplex) (audio : List FloatV) (sr o : ℕ) :
    (compute_lsf lpcFit rootsOf audio sr o = [] ↔
      (lsfPoly lpcFit audio).any (fun v => !v.isFinite) = true ∨
      (rootsOf (lsfPoly lpcFit audio)).any (fun z => !z.isFinite) = true ∨
      (rootsOf (lsfPoly lpcFit audio)).filter
        (fun z => decide (Complex.abs z.toComplex < 1)) = []) ∧
    ((lsfPoly lpcFit audio).any (fun v => !v.isFinite) = true →
      ∀ rootsOf2 : List FloatV → List NpComplex,
        compute_lsf lpcFit rootsOf2 audio sr o = []) ∧
    ((lsfPoly lpcFit audio).any (fun v => !v.isFinite) = false →
      (rootsOf (lsfPoly lpcFit audio)).any (fun z => !z.isFinite) = false →
      (rootsOf (lsfPoly lpcFit audio)).filter
          (fun z => decide (Complex.abs z.toComplex < 1)) ≠ [] →
      compute_lsf lpcFit rootsOf audio sr o =
        List.insertionSort (· ≤ ·)
          (((rootsOf (lsfPoly lpcFit audio)).filter
              (fun z => decide (Complex.abs z.toComplex < 1))).map
            (fun z => Complex.arg z.toComplex)) ∧
      compute_lsf lpcFit rootsOf audio sr o ≠ []) := by
  refine ⟨?_, ?_, ?_⟩
  · by_cases h1 : (lsfPoly lpcFit audio).any (fun v => !v.isFinite) = true
    · simp [compute_lsf, h1]
    · by_cases h2 : (rootsOf (lsfPoly lpcFit audio)).any (fun z => !z.isFinite) = true
      · simp [compute_lsf, h1, h2]
      · by_cases h3 : (rootsOf (lsfPoly lpcFit audio)).filter
            (fun z => decide (Complex.abs z.toComplex < 1)) = []
        · simp [compute_lsf, h1, h2, h3]
        · have h4 := insertionSort_ne_nil (l :=
            ((rootsOf (lsfPoly lpcFit audio)).filter
              (fun z => decide (Complex.abs z.toComplex < 1))).map
              (fun z => Complex.arg z.toComplex)) (by simpa using h3)
          simp [compute_lsf, h1, h2, h3, h4]
  · intro h1 rootsOf2
    simp [compute_lsf, h1]
  · intro h1 h2 h3
    have h4 := insertionSort_ne_nil (l :=
      ((rootsOf (lsfPoly lpcFit audio)).filter
        (fun z => decide (Complex.abs z.toComplex < 1))).map
        (fun z => Complex.arg z.toComplex)) (by simpa using h3)
    constructor
    · simp [compute_lsf, h1, h2, h3]
    · simp [compute_lsf, h1, h2, h3, h4]

/-- C1 witness: the taxonomy applied to a fitter whose coefficients
contain NaN — the result is empty through the first check. -/
theorem compute_lsf_failure_taxonomy_witness :
    compute_lsf (fun _ _ => [FloatV.nan]) rootsOf0 [] 0 10 = [] :=
  (compute_lsf_failure_taxonomy (fun _ _ => [FloatV.nan]) rootsOf0 [] 0 10).2.1
    rfl rootsOf0

/-! C2: sortedness and range of the LSF values. -/

/-- C2 counterexample: a stable root on the negative real axis has
angle exactly pi, so the returned value pi does not lie strictly within
the open interval (-pi, pi). -/
theorem compute_lsf_pi_cex :
    compute_lsf lpcFit0 rootsOfNeg [] 0 10 = [Real.pi] ∧ ¬ Real.pi < Real.pi := by
  have hval : NpComplex.toComplex ⟨FloatV.fin (-(1/2)), FloatV.fin 0⟩ =
      ((-(1/2) : ℝ) : ℂ) := by
    simp [NpComplex.toComplex, FloatV.toReal]
  have habs : Complex.abs (NpComplex.toComplex ⟨FloatV.fin (-(1/2)), FloatV.fin 0⟩) < 1 := by
    rw [hval, Complex.abs_ofReal, abs_neg, abs_of_pos (by norm_num : (0:ℝ) < 1/2)]
    norm_num
  have harg : Complex.arg (NpComplex.toComplex ⟨FloatV.fin (-(1/2)), FloatV.fin 0⟩) =
      Real.pi := by
    rw [hval, Complex.arg_ofReal_of_neg (by norm_num)]
  constructor
  · show compute_lsf lpcFit0 (fun _ => [⟨FloatV.fin (-(1/2)), FloatV.fin 0⟩]) [] 0 10 =
      [Real.pi]
    rw [compute_lsf_eval_single [] 0 10 (-(1/2)) 0 habs, harg]
  · exact lt_irrefl _

/-- C2 (amended): every non-empty LSF result is sorted ascending and
every value lies in the half-open interval (-pi, pi] — the upper bound
pi is attained exactly by stable roots on the negative real axis, since
the angle function has range (-pi, pi]. -/
theorem compute_lsf_sorted_range (lpcFit : List FloatV → ℕ → List FloatV)
    (rootsOf : List FloatV → List NpComplex) (audio : List FloatV) (sr o : ℕ)
    (h : compute_lsf lpcFit rootsOf audio sr o ≠ []) :
    List.Sorted (· ≤ ·) (compute_lsf lpcFit rootsOf audio sr o) ∧
    ∀ x ∈ compute_lsf lpcFit rootsOf audio sr o, -Real.pi < x ∧ x ≤ Real.pi := by
  by_cases h1 : (lsfPoly lpcFit audio).any (fun v => !v.isFinite) = true
  · exact absurd (by simp [compute_lsf, h1]) h
  · by_cases h2 : (rootsOf (lsfPoly lpcFit audio)).any (fun z => !z.isFinite) = true
    · exact absurd (by simp [compute_lsf, h1, h2]) h
    · by_cases h3 : (rootsOf (lsfPoly lpcFit audio)).filter
          (fun z => decide (Complex.abs z.toComplex < 1)) = []
      · exact absurd (by simp [compute_lsf, h1, h2, h3]) h
      · have hres : compute_lsf lpcFit rootsOf audio sr o =
            List.insertionSort (· ≤ ·)
              (((rootsOf (lsfPoly lpcFit audio)).filter
                  (fun z => decide (Complex.abs z.toComplex < 1))).map
                (fun z => Complex.arg z.toComplex)) := by
          simp [compute_lsf, h1, h2, h3]
        rw [hres]
        constructor
        · exact List.sorted_insertionSort (· ≤ ·) _
        · intro x hx
          rw [List.mem_insertionSort, List.mem_map] at hx
          obtain ⟨z, _, rfl⟩ := hx
          exact ⟨Complex.neg_pi_lt_arg _, Complex.arg_le_pi _⟩

/-- C2 witness: the amended theorem applied to a concrete run whose
result is the single value 0. -/
theorem compute_lsf_sorted_range_witness :
    List.Sorted (· ≤ ·) (compute_lsf lpcFit0 rootsOf0 [] 0 10) ∧
    -Real.pi < 0 ∧ (0 : ℝ) ≤ Real.pi := by
  have h := compute_lsf_sorted_range lpcFit0 rootsOf0 [] 0 10
    (by rw [compute_lsf_eval0]; simp)
  refine ⟨h.1, ?_⟩
  have := h.2 0 (by rw [compute_lsf_eval0]; simp)
  exact this

/-! Fold lemmas for the numpy-style min/max over a list. -/

theorem foldl_min_map_comm (f : ℝ → ℝ) (hf : ∀ a b : ℝ, f (min a b) = min (f a) (f b)) :
    ∀ (xs : List ℝ) (x : ℝ), (xs.map f).foldl min (f x) = f (xs.foldl min x) := by
  intro xs
  induction xs with
  | nil => intro x; rfl
  | cons y ys ih =>
    intro x
    simp only [List.map_cons, List.foldl_cons]
    rw [← hf, ih]

theorem foldl_max_map_comm (f : ℝ → ℝ) (hf : ∀ a b : ℝ, f (max a b) = max (f a) (f b)) :
    ∀ (xs : List ℝ) (x : ℝ), (xs.map f).foldl max (f x) = f (xs.foldl max x) := by
  intro xs
  induction xs with
  | nil => intro x; rfl
  | cons y ys ih =>
    intro x
    simp only [List.map_cons, List.foldl_cons]
    rw [← hf, ih]

theorem npMin_map (f : ℝ → ℝ) (hf : ∀ a b : ℝ, f (min a b) = min (f a) (f b))
    (l : List ℝ) (hl : l ≠ []) : npMin (l.map f) = f (npMin l) := by
  cases l with
  | nil => exact absurd rfl hl
  | cons x xs => exact foldl_min_map_comm f hf xs x

theorem npMax_map (f : ℝ → ℝ) (hf : ∀ a b : ℝ, f (max a b) = max (f a) (f b))
    (l : List ℝ) (hl : l ≠ []) : npMax (l.map f) = f (npMax l) := by
  cases l with
  | nil => exact absurd rfl hl
  | cons x xs => exact foldl_max_map_comm f hf xs x

theorem foldl_min_le_init (xs : List ℝ) : ∀ x : ℝ, xs.foldl min x ≤ x := by
  induction xs with
  | nil => intro x; exact le_refl x
  | cons z zs ih => intro x; exact le_trans (ih (min x z)) (min_le_left x z)

theorem foldl_min_le_mem (xs : List ℝ) : ∀ x y : ℝ, y ∈ xs → xs.foldl min x ≤ y := by
  induction xs with
  | nil => intro x y hy; simp at hy
  | cons z zs ih =>
    intro x y hy
    rcases List.mem_cons.mp hy with h | h
    · subst h
      exact le_trans (foldl_min_le_init zs (min x y)) (min_le_right x y)
    · exact ih (min x z) y h

theorem foldl_max_init_le (xs : List ℝ) : ∀ x : ℝ, x ≤ xs.foldl max x := by
  induction xs with
  | nil => intro x; exact le_refl x
  | cons z zs ih => intro x; exact le_trans (le_max_left x z) (ih (max x z))

theorem foldl_max_mem_le (xs : List ℝ) : ∀ x y : ℝ, y ∈ xs → y ≤ xs.foldl max x := by
  induction xs with
  | nil => intro x y hy; simp at hy
  | cons z zs ih =>
    intro x y hy
    rcases List.mem_cons.mp hy with h | h
    · subst h
      exact le_trans (le_max_right x y) (foldl_max_init_le zs (max x y))
    · exact ih (max x z) y h

theorem npMin_le (l : List ℝ) (y : ℝ) (hy : y ∈ l) : npMin l ≤ y := by
  cases l with
  | nil => simp at hy
  | cons x xs =>
    rcases List.mem_cons.mp hy with h | h
    · subst h
      exact foldl_min_le_init xs y
    · exact foldl_min_le_mem xs x y h

theorem le_npMax (l : List ℝ) (y : ℝ) (hy : y ∈ l) : y ≤ npMax l := by
  cases l with
  | nil => simp at hy
  | cons x xs =>
    rcases List.mem_cons.mp hy with h | h
    · subst h
      exact foldl_max_init_le xs y
    · exact foldl_max_mem_le xs x y h

theorem cqcc_normalize_min_max (l : List ℝ) (hne : ∃ a ∈ l, ∃ b ∈ l, a ≠ b) :
    npMin (cqcc_normalize l) = 0 ∧ npMax (cqcc_normalize l) = 1 ∧
    ∀ x ∈ cqcc_normalize l, 0 ≤ x ∧ x ≤ 1 := by
  obtain ⟨a, ha, b, hb, hab⟩ := hne
  have hl : l ≠ [] := by
    intro h
    rw [h] at ha
    simp at ha
  have hmM : npMin l < npMax l := by
    rcases lt_or_le (npMin l) (npMax l) with h | h
    · exact h
    · exfalso
      apply hab
      have ha2 : a = npMin l :=
        le_antisymm (le_trans (le_npMax l a ha) h) (npMin_le l a ha)
      have hb2 : b = npMin l :=
        le_antisymm (le_trans (le_npMax l b hb) h) (npMin_le l b hb)
      rw [ha2, hb2]
  have hsub : ∀ a b : ℝ, min a b - npMin l = min (a - npMin l) (b - npMin l) :=
    fun a b => (min_sub_sub_right a b (npMin l)).symm
  have hsubmax : ∀ a b : ℝ, max a b - npMin l = max (a - npMin l) (b - npMin l) :=
    fun a b => (max_sub_sub_right a b (npMin l)).symm
  have hshift_ne : l.map (fun x => x - npMin l) ≠ [] := by
    simpa using hl
  have hminshift : npMin (l.map (fun x => x - npMin l)) = 0 := by
    rw [npMin_map (fun x => x - npMin l) hsub l hl]
    simp
  have hmaxshift : npMax (l.map (fun x => x - npMin l)) = npMax l - npMin l := by
    rw [npMax_map (fun x => x - npMin l) hsubmax l hl]
  have hD : 0 < npMax (l.map (fun x => x - npMin l)) := by
    rw [hmaxshift]
    exact sub_pos.mpr hmM
  have hdivmin : ∀ a b : ℝ,
      min a b / npMax (l.map (fun x => x - npMin l)) =
      min (a / npMax (l.map (fun x => x - npMin l)))
          (b / npMax (l.map (fun x => x - npMin l))) :=
    fun a b => (min_div_div_right (le_of_lt hD) a b).symm
  have hdivmax : ∀ a b : ℝ,
      max a b / npMax (l.map (fun x => x - npMin l)) =
      max (a / npMax (l.map (fun x => x - npMin l)))
          (b / npMax (l.map (fun x => x - npMin l))) :=
    fun a b => (max_div_div_right (le_of_lt hD) a b).symm
  refine ⟨?_, ?_, ?_⟩
  · simp only [cqcc_normalize]
    rw [npMin_map _ hdivmin _ hshift_ne, hminshift, zero_div]
  · simp only [cqcc_normalize]
    rw [npMax_map _ hdivmax _ hshift_ne, div_self (ne_of_gt hD)]
  · simp only [cqcc_normalize]
    intro x hx
    rw [List.mem_map] at hx
    obtain ⟨s, hs, rfl⟩ := hx
    rw [List.mem_map] at hs
    obtain ⟨y, hy, rfl⟩ := hs
    constructor
    · apply div_nonneg _ (le_of_lt hD)
      exact sub_nonneg.mpr (npMin_le l y hy)
    · rw [div_le_one hD, hmaxshift]
      exact sub_le_sub_right (le_npMax l y hy) _

/-! C7: CQCC normalization attains the endpoints 0 and 1. -/

/-- C7: whenever the unnormalized cepstral coefficients of a CQCC run
are not all equal, the normalized output has minimum exactly 0 and
maximum exactly 1, and every value lies in the closed interval
[0, 1]. -/
theorem compute_cqcc_normalized (cqtMag : List FloatV → ℕ → ℕ → ℕ → List ℝ)
    (mfccS : List ℝ → ℕ → List ℝ) (audio : List FloatV) (sr nb nc hop : ℕ)
    (hne : ∃ a ∈ mfccS ((cqtMag audio sr nb hop).map
             (fun m => Real.log (m + 1e-6))) nc,
           ∃ b ∈ mfccS ((cqtMag audio sr nb hop).map
             (fun m => Real.log (m + 1e-6))) nc, a ≠ b) :
    npMin (compute_cqcc cqtMag mfccS audio sr nb nc hop) = 0 ∧
    npMax (compute_cqcc cqtMag mfccS audio sr nb nc hop) = 1 ∧
    ∀ x ∈ compute_cqcc cqtMag mfccS audio sr nb nc hop, 0 ≤ x ∧ x ≤ 1 := by
  have h := cqcc_normalize_min_max
    (mfccS ((cqtMag audio sr nb hop).map (fun m => Real.log (m + 1e-6))) nc) hne
  simpa only [compute_cqcc] using h

/-- C7 witness: the theorem applied to a run whose unnormalized
coefficients are the distinct values 0 and 1. -/
theorem compute_cqcc_normalized_witness :
    npMin (compute_cqcc (fun _ _ _ _ => []) (fun _ _ => [0, 1]) [] 0 0 0 0) = 0 ∧
    npMax (compute_cqcc (fun _ _ _ _ => []) (fun _ _ => [0, 1]) [] 0 0 0 0) = 1 := by
  have h := compute_cqcc_normalized (fun _ _ _ _ => []) (fun _ _ => [0, 1]) [] 0 0 0 0
    ⟨0, by simp, 1, by simp, by norm_num⟩
  exact ⟨h.1, h.2.1⟩

/-! Concrete evaluations of the per-clip pipeline. -/

theorem pre_emphasis_eval0 :
    pre_emphasis (FloatV.fin (1/2)) [FloatV.fin 1, FloatV.fin 1] =
      some [FloatV.fin 1, FloatV.fin (1/2)] := by
  simp [pre_emphasis, FloatV.sub, FloatV.mul]
  norm_num

theorem compute_cqcc_eval_t (y : List FloatV) (t : ℝ)
    (ht : y.getD 1 FloatV.nan = FloatV.fin t) (h0t : 0 ≤ t) (ht1 : t ≤ 1)
    (sr nb nc hop : ℕ) :
    compute_cqcc cqtMag0 mfccS0 y sr nb nc hop = [0, t, 1] := by
  have e1 : (1 : ℝ) - 1e-6 + 1e-6 = 1 := by norm_num
  have e2 : Real.exp t - 1e-6 + 1e-6 = Real.exp t := by ring
  have e3 : Real.exp 1 - 1e-6 + 1e-6 = Real.exp 1 := by ring
  have hlist : compute_cqcc cqtMag0 mfccS0 y sr nb nc hop = cqcc_normalize [0, t, 1] := by
    simp only [compute_cqcc, cqtMag0, mfccS0, ht, FloatV.toReal, List.map_cons,
      List.map_nil]
    rw [e1, e2, e3, Real.log_one, Real.log_exp, Real.log_exp]
  have hmin : npMin [0, t, 1] = 0 := by
    simp only [npMin, List.foldl_cons, List.foldl_nil]
    rw [min_eq_left h0t, min_eq_left zero_le_one]
  have hmax : npMax [0, t, 1] = 1 := by
    simp only [npMax, List.foldl_cons, List.foldl_nil]
    rw [max_eq_right h0t, max_eq_right ht1]
  rw [hlist]
  simp only [cqcc_normalize, hmin, sub_zero, List.map_cons, List.map_nil]
  rw [hmax]
  norm_num

theorem process_audio_eval0 :
    process_audio lpcFit0 rootsOf0 mfccY0 cqtMag0 mfccS0
      [FloatV.fin 1, FloatV.fin 1] 16000 =
      some (some ⟨[0], [0], [FloatV.fin 0], [0, 1, 1]⟩) := by
  have hcq := compute_cqcc_eval_t [FloatV.fin 1, FloatV.fin 1] 1 rfl zero_le_one
    (le_refl 1) 16000 6 6 2048
  simp only [process_audio, pre_emphasis_eval0, compute_lsf_eval0, compute_mfcc,
    compute_lpc, hcq, mfccY0, lpcFit0]
  simp [FloatV.isFinite]

/-! C9: which waveform feeds the CQCC extractor. -/

/-- C9 counterexample: on a concrete two-sample clip the bundle's CQCC
array equals the CQCC of the raw waveform, which differs from the CQCC
of the pre-emphasized waveform — so the constant-Q input is not
computed from the pre-emphasized signal. -/
theorem process_audio_cqcc_raw_cex :
    process_audio lpcFit0 rootsOf0 mfccY0 cqtMag0 mfccS0
      [FloatV.fin 1, FloatV.fin 1] 16000 =
      some (some ⟨[0], [0], [FloatV.fin 0], [0, 1, 1]⟩) ∧
    pre_emphasis (FloatV.fin (1/2)) [FloatV.fin 1, FloatV.fin 1] =
      some [FloatV.fin 1, FloatV.fin (1/2)] ∧
    compute_cqcc cqtMag0 mfccS0 [FloatV.fin 1, FloatV.fin (1/2)] 16000 6 6 2048 =
      [0, 1/2, 1] ∧
    ([0, 1, 1] : List ℝ) ≠ [0, 1/2, 1] := by
  refine ⟨process_audio_eval0, pre_emphasis_eval0, ?_, ?_⟩
  · exact compute_cqcc_eval_t [FloatV.fin 1, FloatV.fin (1/2)] (1/2) rfl
      (by norm_num) (by norm_num) 16000 6 6 2048
  · intro h
    have h2 := List.tail_eq_of_cons_eq h
    have h3 := List.head_eq_of_cons_eq h2
    norm_num at h3

/-- C9 (amended): in the per-clip pipeline, MFCC, LPC and LSF are
computed from the pre-emphasized waveform, but the constant-Q cepstral
input (CQCC) is computed from the raw waveform `audio_data`, not from
the pre-emphasized signal. -/
theorem process_audio_dataflow (lpcFit : List FloatV → ℕ → List FloatV)
    (rootsOf : List FloatV → List NpComplex)
    (mfccY : List FloatV → ℕ → ℕ → List ℝ)
    (cqtMag : List FloatV → ℕ → ℕ → ℕ → List ℝ)
    (mfccS : List ℝ → ℕ → List ℝ)
    (audio pre : List FloatV) (sr : ℕ) (b : FeatureBundle)
    (hpre : pre_emphasis (FloatV.fin (1/2)) audio = some pre)
    (hb : process_audio lpcFit rootsOf mfccY cqtMag mfccS audio sr = some (some b)) :
    b.cqcc = compute_cqcc cqtMag mfccS audio sr 6 6 2048 ∧
    b.mfcc = compute_mfcc mfccY pre sr 1 ∧
    b.lpc = compute_lpc lpcFit pre ∧
    b.lsf = compute_lsf lpcFit rootsOf pre sr 10 := by
  unfold process_audio at hb
  rw [hpre] at hb
  by_cases h1 : pre.any (fun v => !v.isFinite) = true
  · simp [h1] at hb
  · by_cases h2 : (compute_lsf lpcFit rootsOf pre sr 10).isEmpty = true
    · simp [h1, h2] at hb
    · simp only [h1, h2, if_false, Bool.false_eq_true, if_neg, Option.some.injEq] at hb
      rw [← hb]
      exact ⟨rfl, rfl, rfl, rfl⟩

/-- C9 witness: the amended theorem applied to the concrete two-sample
clip. -/
theorem process_audio_dataflow_witness :
    FeatureBundle.cqcc ⟨[0], [0], [FloatV.fin 0], [0, 1, 1]⟩ =
      compute_cqcc cqtMag0 mfccS0 [FloatV.fin 1, FloatV.fin 1] 16000 6 6 2048 :=
  (process_audio_dataflow lpcFit0 rootsOf0 mfccY0 cqtMag0 mfccS0
    [FloatV.fin 1, FloatV.fin 1] [FloatV.fin 1, FloatV.fin (1/2)] 16000
    ⟨[0], [0], [FloatV.fin 0], [0, 1, 1]⟩ pre_emphasis_eval0 process_audio_eval0).1

/-! C5: failure isolation across the two batch loops. -/

/-- A loader for a five-clip batch whose third clip fails to decode;
every other clip decodes to the two-sample waveform. -/
def load3 : ℕ → Except ℕ (List FloatV × ℕ) :=
  fun f => if f = 3 then Except.error 0
           else Except.ok ([FloatV.fin 1, FloatV.fin 1], 16000)

/-- C5 counterexample: on a batch of five clips whose third clip raises
a decode failure, `turn` (pre_process_2.py) aborts with that error —
clips 4 and 5 are never processed — while `process_audio_directory`
(pre_process_1.py), whose loop body is wrapped in try/except, still
processes clips 1, 2, 4 and 5 and merely skips clip 3. The claim that a
decode failure never aborts the batch is therefore false for `turn`. -/
theorem batch_abort_cex :
    turn (fun _ => true) load3 lpcFit0 rootsOf0 mfccY0 cqtMag0 mfccS0 [1, 2, 3, 4, 5] =
      Except.error (Sum.inl 0) ∧
    process_audio_directory (fun _ => true) load3 (fun _ => ()) [1, 2, 3, 4, 5] =
      [(1, some ()), (2, some ()), (3, none), (4, some ()), (5, some ())] := by
  constructor
  · simp [turn, load3, process_audio_eval0, Except.map]
  · simp [process_audio_directory, load3]

/-- C5 (amended): in `process_audio_directory` every per-clip failure
is caught: each `.wav` clip yields its own processed-or-skipped
outcome, determined only by that clip's own load result, and the batch
always completes with one outcome per `.wav` clip. In `turn`, a
detected failure (`process_audio` returning None) is skipped and the
batch continues, and when every `.wav` clip loads successfully and is
non-degenerate the loop returns normally; but a decode failure raised
while loading a clip propagates, aborting the batch. -/
theorem batch_failure_isolation {ι ε α β : Type}
    (isWav : ι → Bool) (load : ι → Except ε α) (extract : α → β)
    (loadA : ι → Except ε (List FloatV × ℕ))
    (lpcFit : List FloatV → ℕ → List FloatV)
    (rootsOf : List FloatV → List NpComplex)
    (mfccY : List FloatV → ℕ → ℕ → List ℝ)
    (cqtMag : List FloatV → ℕ → ℕ → ℕ → List ℝ)
    (mfccS : List ℝ → ℕ → List ℝ) :
    (∀ files : List ι,
      (process_audio_directory isWav load extract files).length =
        (files.filter isWav).length) ∧
    (∀ (files : List ι) (f : ι) (a : α), f ∈ files → isWav f = true →
      load f = Except.ok a →
      (f, some (extract a)) ∈ process_audio_directory isWav load extract files) ∧
    (∀ (files : List ι) (f : ι) (e : ε), f ∈ files → isWav f = true →
      load f = Except.error e →
      (f, (none : Option β)) ∈ process_audio_directory isWav load extract files) ∧
    (∀ (f : ι) (rest : List ι) (audio : List FloatV) (sr : ℕ), isWav f = true →
      loadA f = Except.ok (audio, sr) →
      process_audio lpcFit rootsOf mfccY cqtMag mfccS audio sr = some none →
      turn isWav loadA lpcFit rootsOf mfccY cqtMag mfccS (f :: rest) =
        turn isWav loadA lpcFit rootsOf mfccY cqtMag mfccS rest) ∧
    (∀ (files : List ι) (f : ι) (e : ε), f ∈ files → isWav f = true →
      loadA f = Except.error e →
      ∃ e2, turn isWav loadA lpcFit rootsOf mfccY cqtMag mfccS files =
        Except.error e2) := by
  refine ⟨?_, ?_, ?_, ?_, ?_⟩
  · intro files
    simp [process_audio_directory]
  · intro files f a hf hwav hload
    simp only [process_audio_directory]
    apply List.mem_map.mpr
    refine ⟨f, List.mem_filter.mpr ⟨hf, hwav⟩, ?_⟩
    rw [hload]
  · intro files f e hf hwav hload
    simp only [process_audio_directory]
    apply List.mem_map.mpr
    refine ⟨f, List.mem_filter.mpr ⟨hf, hwav⟩, ?_⟩
    rw [hload]
  · intro f rest audio sr hwav hload hproc
    simp [turn, hwav, hload, hproc]
  · intro files
    induction files with
    | nil => intro f e hf _ _; simp at hf
    | cons g rest ih =>
      intro f e hf hwav hload
      rcases List.mem_cons.mp hf with h | h
      · subst h
        refine ⟨Sum.inl e, ?_⟩
        simp [turn, hwav, hload]
      · by_cases hg : isWav g = true
        swap
        · obtain ⟨e2, he2⟩ := ih f e h hwav hload
          refine ⟨e2, ?_⟩
          simp [turn, hg, he2]
        · cases hgl : loadA g with
          | error e2 =>
            refine ⟨Sum.inl e2, ?_⟩
            simp [turn, hg, hgl]
          | ok p =>
            obtain ⟨audio, sr⟩ := p
            obtain ⟨e2, he2⟩ := ih f e h hwav hload
            cases hproc : process_audio lpcFit rootsOf mfccY cqtMag mfccS audio sr with
            | none =>
              refine ⟨Sum.inr (), ?_⟩
              simp [turn, hg, hgl, hproc]
            | some ob =>
              cases ob with
              | none =>
                refine ⟨e2, ?_⟩
                simp [turn, hg, hgl, hproc, he2]
              | some b =>
                refine ⟨e2, ?_⟩
                simp [turn, hg, hgl, hproc, he2, Except.map]

/-- C5 witness: the amended theorem applied to a concrete one-clip
batch that loads successfully. -/
theorem batch_failure_isolation_witness :
    (process_audio_directory (fun _ => true) (fun _ => (Except.ok 0 : Except ℕ ℕ))
      (fun a => a) [7]).length = ([7].filter (fun _ => true)).length ∧
    ((7 : ℕ), some (0 : ℕ)) ∈ process_audio_directory (fun _ => true)
      (fun _ => (Except.ok 0 : Except ℕ ℕ)) (fun a => a) [7] := by
  have h := @batch_failure_isolation ℕ ℕ ℕ ℕ (fun _ => true)
    (fun _ => (Except.ok 0 : Except ℕ ℕ)) (fun a => a)
    (fun _ => Except.ok ([], 0)) lpcFit0 rootsOf0 mfccY0 cqtMag0 mfccS0
  exact ⟨h.1 [7], h.2.1 [7] 7 0 (by simp) rfl rfl⟩

end PreProc
